import Mathlib

set_option autoImplicit false

/-! Shallow embedding of the retrieval core of the SRIRecipe backend:
the facet index (BackEnd/services/facet_index.py), the inverted index
(BackEnd/services/inverted_index.py), the FAISS similarity service
(BackEnd/services/faiss_service.py) and the hybrid merge of the
/api/search/hybrid route (BackEnd/app.py).

Python dicts are modelled as insertion-ordered association lists with
unique keys, Python sets as Finset String, and float scores as exact
rationals.  External collaborators (the NLTK normalization pipeline and
the FAISS nearest-neighbor engine) are treated as abstract inputs: the
embedded functions start from the values those collaborators return. -/

/-- A Python dict with string keys, as an insertion-ordered association list. -/
abbrev Dict (α : Type) := List (String × α)

/-- Python dict read d[k] / d.get(k): value at the first (unique) matching key. -/
def dget {α : Type} : Dict α → String → Option α
  | [], _ => none
  | (k2, v) :: rest, k => if k2 = k then some v else dget rest k

/-- Python defaultdict(set) operation d[k].add(x): insert x into the set at
key k, materializing a fresh singleton entry if the key is absent. -/
def daddSet : Dict (Finset String) → String → String → Dict (Finset String)
  | [], k, x => [(k, {x})]
  | (k2, s) :: rest, k, x =>
      if k2 = k then (k2, insert x s) :: rest else (k2, s) :: daddSet rest k x

/-- Python dict assignment d[k] = v: overwrite in place if present, else append. -/
def dset {α : Type} : Dict α → String → α → Dict α
  | [], k, v => [(k, v)]
  | (k2, w) :: rest, k, v =>
      if k2 = k then (k2, v) :: rest else (k2, w) :: dset rest k v

/-- Python defaultdict(float) operation scores[k] += v (missing keys start at 0). -/
def daddQ : Dict ℚ → String → ℚ → Dict ℚ
  | [], k, v => [(k, v)]
  | (k2, w) :: rest, k, v =>
      if k2 = k then (k2, w + v) :: rest else (k2, w) :: daddQ rest k v

/-- Union of all value sets of a dict of sets. -/
def dvalsUnion : Dict (Finset String) → Finset String
  | [] => ∅
  | (_, s) :: rest => s ∪ dvalsUnion rest

/-- Python d.get(k, set()). -/
def dgetD (d : Dict (Finset String)) (k : String) : Finset String :=
  (dget d k).getD ∅

/-- Stable insertion of a scored entry into a list sorted by descending score. -/
def insertDesc (x : String × ℚ) : List (String × ℚ) → List (String × ℚ)
  | [] => [x]
  | y :: ys => if y.2 ≤ x.2 then x :: y :: ys else y :: insertDesc x ys

/-- Python sorted(entries, key := score, reverse) : a stable descending sort. -/
def sortByScoreDesc : List (String × ℚ) → List (String × ℚ)
  | [] => []
  | x :: xs => insertDesc x (sortByScoreDesc xs)

/-- A recipe ingredient entry; only the item name matters to the indexes. -/
structure Ingredient where
  item : String

/-- A recipe document as consumed by the facet index.  A field is none when
the corresponding key is missing from the recipe dictionary; durationTotal
is none when the duration dict or its total key is missing. -/
structure Recipe where
  country : Option String
  category : Option String
  difficulty : Option String
  meal_type : Option String
  cooking_method : Option String
  ingredients : List Ingredient
  durationTotal : Option Int

/-- Python item.strip().lower() on an ingredient name. -/
def stripLower (s : String) : String := s.trim.toLower

/-- State of FacetIndex: the six per-facet posting dicts, the sets of
observed facet values, and the three duration buckets (the fixed-key
duration_index dict of the source). -/
structure FacetIndex where
  country_index : Dict (Finset String)
  category_index : Dict (Finset String)
  difficulty_index : Dict (Finset String)
  meal_type_index : Dict (Finset String)
  cooking_method_index : Dict (Finset String)
  ingredient_index : Dict (Finset String)
  all_countries : Finset String
  all_categories : Finset String
  all_difficulties : Finset String
  all_meal_types : Finset String
  all_cooking_methods : Finset String
  all_ingredients : Finset String
  dur_quick : Finset String
  dur_medium : Finset String
  dur_long : Finset String

/-- Fresh FacetIndex() as produced by the constructor. -/
def FacetIndex.init : FacetIndex :=
  ⟨[], [], [], [], [], [], ∅, ∅, ∅, ∅, ∅, ∅, ∅, ∅, ∅⟩

/-- The ingredient loop of FacetIndex.add_recipe: each item is stripped and
lowercased, and items that are non-empty and longer than 2 characters are
added to the ingredient posting dict and the set of known ingredients. -/
def addIngredients (rid : String) :
    List Ingredient → Dict (Finset String) × Finset String →
    Dict (Finset String) × Finset String
  | [], p => p
  | ing :: rest, p =>
      let item := stripLower ing.item
      if item ≠ "" ∧ 2 < item.length then
        addIngredients rid rest (daddSet p.1 item rid, insert item p.2)
      else
        addIngredients rid rest p

/-- FacetIndex.add_recipe: missing categorical fields default to the
sentinel Unknown; the recipe id is added to every facet posting dict and to
exactly one duration bucket, derived from duration.total with default 0
(quick below 30, medium from 30 to 60, long above 60). -/
def FacetIndex.add_recipe (fi : FacetIndex) (rid : String) (r : Recipe) : FacetIndex :=
  let country := r.country.getD "Unknown"
  let category := r.category.getD "Unknown"
  let difficulty := r.difficulty.getD "Unknown"
  let meal_type := r.meal_type.getD "Unknown"
  let cooking_method := r.cooking_method.getD "Unknown"
  let ingPair := addIngredients rid r.ingredients (fi.ingredient_index, fi.all_ingredients)
  let total := r.durationTotal.getD 0
  { country_index := daddSet fi.country_index country rid
    category_index := daddSet fi.category_index category rid
    difficulty_index := daddSet fi.difficulty_index difficulty rid
    meal_type_index := daddSet fi.meal_type_index meal_type rid
    cooking_method_index := daddSet fi.cooking_method_index cooking_method rid
    ingredient_index := ingPair.1
    all_countries := insert country fi.all_countries
    all_categories := insert category fi.all_categories
    all_difficulties := insert difficulty fi.all_difficulties
    all_meal_types := insert meal_type fi.all_meal_types
    all_cooking_methods := insert cooking_method fi.all_cooking_methods
    all_ingredients := ingPair.2
    dur_quick := if total < 30 then insert rid fi.dur_quick else fi.dur_quick
    dur_medium :=
      if total < 30 then fi.dur_medium
      else if total ≤ 60 then insert rid fi.dur_medium else fi.dur_medium
    dur_long :=
      if total < 30 then fi.dur_long
      else if total ≤ 60 then fi.dur_long else insert rid fi.dur_long }

/-- Facet index built by calling add_recipe on each (id, recipe) pair in
order, as the app factory does over the loaded recipe collection. -/
def buildFacetIndex (rs : List (String × Recipe)) : FacetIndex :=
  rs.foldl (fun fi p => fi.add_recipe p.1 p.2) FacetIndex.init

/-- A criteria dictionary for FacetIndex.filter_recipes.  A field is none
when the key is missing; a present falsy value (empty string, 0, empty
list) is skipped by the source guards exactly like a missing key. -/
structure Filters where
  country : Option String
  category : Option String
  difficulty : Option String
  meal_type : Option String
  cooking_method : Option String
  max_time : Option Int
  ingredients : Option (List String)
  exclude_ingredients : Option (List String)

/-- The empty criteria dictionary. -/
def Filters.noCriteria : Filters :=
  ⟨none, none, none, none, none, none, none, none⟩

/-- One exact-match facet criterion of filter_recipes: applied only when
the key is present with a truthy (non-empty) value; intersects the running
set with that value's posting set (empty when the value is unindexed). -/
def applyFacetCrit (idx : Dict (Finset String)) (crit : Option String)
    (ids : Finset String) : Finset String :=
  match crit with
  | some v => if v ≠ "" then ids ∩ dgetD idx v else ids
  | none => ids

/-- The max_time criterion of filter_recipes: quick recipes always qualify
and medium ones qualify only when the threshold is at least 30; skipped
when the key is missing or the value is falsy (0). -/
def applyMaxTime (fi : FacetIndex) (crit : Option Int)
    (ids : Finset String) : Finset String :=
  match crit with
  | some t =>
      if t ≠ 0 then ids ∩ (fi.dur_quick ∪ (if 30 ≤ t then fi.dur_medium else ∅))
      else ids
  | none => ids

/-- The required-ingredients criterion: the running set is intersected with
the posting set of every listed ingredient (stripped, lowercased). -/
def applyIngredientsCrit (idx : Dict (Finset String)) (crit : Option (List String))
    (ids : Finset String) : Finset String :=
  match crit with
  | some l =>
      if l ≠ [] then l.foldl (fun acc ing => acc ∩ dgetD idx (stripLower ing)) ids
      else ids
  | none => ids

/-- The excluded-ingredients criterion: the posting set of every listed
ingredient is subtracted from the running set. -/
def applyExcludeCrit (idx : Dict (Finset String)) (crit : Option (List String))
    (ids : Finset String) : Finset String :=
  match crit with
  | some l =>
      if l ≠ [] then l.foldl (fun acc ing => acc \ dgetD idx (stripLower ing)) ids
      else ids
  | none => ids

/-- FacetIndex.filter_recipes: returns the empty set when both the country
and category dicts are empty; otherwise starts from the union of all value
sets of the first non-empty dict among country, category, difficulty and
applies every supplied criterion in source order.  (After the initial
guard the final else-branch base is unreachable; the source returns the
empty set there before applying criteria, which agrees with applying them
to the empty base.) -/
def FacetIndex.filter_recipes (fi : FacetIndex) (f : Filters) : Finset String :=
  if fi.country_index = [] ∧ fi.category_index = [] then ∅
  else
    let base :=
      if fi.country_index ≠ [] then dvalsUnion fi.country_index
      else if fi.category_index ≠ [] then dvalsUnion fi.category_index
      else if fi.difficulty_index ≠ [] then dvalsUnion fi.difficulty_index
      else ∅
    applyExcludeCrit fi.ingredient_index f.exclude_ingredients
      (applyIngredientsCrit fi.ingredient_index f.ingredients
        (applyMaxTime fi f.max_time
          (applyFacetCrit fi.cooking_method_index f.cooking_method
            (applyFacetCrit fi.meal_type_index f.meal_type
              (applyFacetCrit fi.difficulty_index f.difficulty
                (applyFacetCrit fi.category_index f.category
                  (applyFacetCrit fi.country_index f.country base)))))))

/-! Basic dict lemmas. -/

theorem daddSet_ne_nil (d : Dict (Finset String)) (k x : String) :
    daddSet d k x ≠ [] := by
  cases d with
  | nil => simp [daddSet]
  | cons p rest =>
      obtain ⟨k2, s⟩ := p
      by_cases h : k2 = k <;> simp [daddSet, h]

theorem dvalsUnion_daddSet (d : Dict (Finset String)) (k x : String) :
    dvalsUnion (daddSet d k x) = insert x (dvalsUnion d) := by
  induction d with
  | nil => simp [daddSet, dvalsUnion]
  | cons p rest ih =>
      obtain ⟨k2, s⟩ := p
      by_cases h : k2 = k <;>
        simp [daddSet, h, dvalsUnion, ih, Finset.insert_union, Finset.union_insert]

/-! Projections of add_recipe. -/

theorem add_recipe_country_index (fi : FacetIndex) (rid : String) (r : Recipe) :
    (fi.add_recipe rid r).country_index
      = daddSet fi.country_index (r.country.getD "Unknown") rid := rfl

theorem add_recipe_dur_quick (fi : FacetIndex) (rid : String) (r : Recipe) :
    (fi.add_recipe rid r).dur_quick
      = if r.durationTotal.getD 0 < 30 then insert rid fi.dur_quick else fi.dur_quick := rfl

theorem add_recipe_dur_medium (fi : FacetIndex) (rid : String) (r : Recipe) :
    (fi.add_recipe rid r).dur_medium
      = if r.durationTotal.getD 0 < 30 then fi.dur_medium
        else if r.durationTotal.getD 0 ≤ 60 then insert rid fi.dur_medium
        else fi.dur_medium := rfl

theorem add_recipe_dur_long (fi : FacetIndex) (rid : String) (r : Recipe) :
    (fi.add_recipe rid r).dur_long
      = if r.durationTotal.getD 0 < 30 then fi.dur_long
        else if r.durationTotal.getD 0 ≤ 60 then fi.dur_long
        else insert rid fi.dur_long := rfl

/-! Build-time shape of the country posting dict. -/

theorem foldl_country_vals (rs : List (String × Recipe)) : ∀ fi : FacetIndex,
    dvalsUnion (rs.foldl (fun fi p => fi.add_recipe p.1 p.2) fi).country_index
      = dvalsUnion fi.country_index ∪ (rs.map Prod.fst).toFinset := by
  induction rs with
  | nil => intro fi; simp
  | cons p rest ih =>
      intro fi
      simp only [List.foldl_cons, ih, add_recipe_country_index, dvalsUnion_daddSet,
        List.map_cons, List.toFinset_cons, Finset.insert_union, Finset.union_insert]

theorem foldl_country_ne_nil (rs : List (String × Recipe)) : ∀ fi : FacetIndex,
    fi.country_index ≠ [] →
    (rs.foldl (fun fi p => fi.add_recipe p.1 p.2) fi).country_index ≠ [] := by
  induction rs with
  | nil => intro fi h; simpa using h
  | cons p rest ih =>
      intro fi _
      simpa using ih (fi.add_recipe p.1 p.2)
        (by rw [add_recipe_country_index]; exact daddSet_ne_nil _ _ _)

theorem buildFacetIndex_country_ne_nil (rs : List (String × Recipe)) (h : rs ≠ []) :
    (buildFacetIndex rs).country_index ≠ [] := by
  match rs, h with
  | p :: rest, _ =>
      unfold buildFacetIndex
      simpa using foldl_country_ne_nil rest (FacetIndex.init.add_recipe p.1 p.2)
        (by rw [add_recipe_country_index]; exact daddSet_ne_nil _ _ _)

/-! Criteria that are absent are skipped. -/

theorem applyFacetCrit_none (idx : Dict (Finset String)) (ids : Finset String) :
    applyFacetCrit idx none ids = ids := rfl

theorem applyMaxTime_none (fi : FacetIndex) (ids : Finset String) :
    applyMaxTime fi none ids = ids := rfl

theorem applyIngredientsCrit_none (idx : Dict (Finset String)) (ids : Finset String) :
    applyIngredientsCrit idx none ids = ids := rfl

theorem applyExcludeCrit_none (idx : Dict (Finset String)) (ids : Finset String) :
    applyExcludeCrit idx none ids = ids := rfl

/-- C5: on a facet index built from a non-empty recipe sequence,
filter_recipes with no criteria returns exactly the set of all indexed
recipe ids (the full document id universe). -/
theorem facet_filter_no_criteria_returns_all (rs : List (String × Recipe)) (h : rs ≠ []) :
    (buildFacetIndex rs).filter_recipes Filters.noCriteria = (rs.map Prod.fst).toFinset := by
  have hc : (buildFacetIndex rs).country_index ≠ [] := buildFacetIndex_country_ne_nil rs h
  unfold FacetIndex.filter_recipes
  rw [if_neg (by intro hcontra; exact hc hcontra.1)]
  simp only [Filters.noCriteria, applyFacetCrit_none, applyMaxTime_none,
    applyIngredientsCrit_none, applyExcludeCrit_none, if_pos hc]
  have hv := foldl_country_vals rs FacetIndex.init
  unfold buildFacetIndex
  rw [hv]
  simp [FacetIndex.init, dvalsUnion]

/-- C5 witness at a one-recipe corpus. -/
theorem facet_filter_no_criteria_returns_all_witness :
    (buildFacetIndex [("r1", ⟨none, none, none, none, none, [], none⟩)]).filter_recipes
        Filters.noCriteria
      = ([("r1", (⟨none, none, none, none, none, [], none⟩ : Recipe))].map Prod.fst).toFinset :=
  facet_filter_no_criteria_returns_all _ (List.cons_ne_nil _ _)

/-! Duration buckets. -/

/-- The duration bucket chosen by the if/elif/else of add_recipe:
0 is quick, 1 is medium, 2 is long. -/
def durBucket (t : Int) : Fin 3 :=
  if t < 30 then 0 else if t ≤ 60 then 1 else 2

/-- The three duration bucket fields, indexed by bucket number. -/
def FacetIndex.durField (fi : FacetIndex) : Fin 3 → Finset String
  | 0 => fi.dur_quick
  | 1 => fi.dur_medium
  | 2 => fi.dur_long

theorem add_recipe_durField (fi : FacetIndex) (rid : String) (r : Recipe) (b : Fin 3) :
    (fi.add_recipe rid r).durField b =
      if durBucket (r.durationTotal.getD 0) = b then insert rid (fi.durField b)
      else fi.durField b := by
  set t := r.durationTotal.getD 0 with ht
  fin_cases b <;>
    simp only [FacetIndex.durField, add_recipe_dur_quick, add_recipe_dur_medium,
      add_recipe_dur_long, durBucket, ← ht] <;>
    by_cases h1 : t < 30 <;> by_cases h2 : t ≤ 60 <;> simp [h1, h2]

theorem mem_foldl_durField (rs : List (String × Recipe)) (x : String) (b : Fin 3) :
    ∀ fi : FacetIndex,
    (x ∈ (rs.foldl (fun fi p => fi.add_recipe p.1 p.2) fi).durField b ↔
      x ∈ fi.durField b ∨ ∃ r, (x, r) ∈ rs ∧ durBucket (r.durationTotal.getD 0) = b) := by
  induction rs with
  | nil => intro fi; simp
  | cons p rest ih =>
      intro fi
      obtain ⟨rid, r⟩ := p
      rw [List.foldl_cons, ih, add_recipe_durField]
      by_cases h : durBucket (r.durationTotal.getD 0) = b
      · rw [if_pos h]
        constructor
        · rintro (hins | ⟨r2, hr2, hb2⟩)
          · rcases Finset.mem_insert.mp hins with rfl | hx
            · exact Or.inr ⟨r, List.mem_cons_self _ _, h⟩
            · exact Or.inl hx
          · exact Or.inr ⟨r2, List.mem_cons_of_mem _ hr2, hb2⟩
        · rintro (hx | ⟨r2, hr2, hb2⟩)
          · exact Or.inl (Finset.mem_insert.mpr (Or.inr hx))
          · rcases List.mem_cons.mp hr2 with heq | hmem
            · exact Or.inl (Finset.mem_insert.mpr (Or.inl (congrArg Prod.fst heq)))
            · exact Or.inr ⟨r2, hmem, hb2⟩
      · rw [if_neg h]
        constructor
        · rintro (hx | ⟨r2, hr2, hb2⟩)
          · exact Or.inl hx
          · exact Or.inr ⟨r2, List.mem_cons_of_mem _ hr2, hb2⟩
        · rintro (hx | ⟨r2, hr2, hb2⟩)
          · exact Or.inl hx
          · rcases List.mem_cons.mp hr2 with heq | hmem
            · have hr2r : r2 = r := congrArg Prod.snd heq
              exact absurd (hr2r ▸ hb2) h
            · exact Or.inr ⟨r2, hmem, hb2⟩

theorem mem_buildFacetIndex_durField (rs : List (String × Recipe)) (x : String) (b : Fin 3) :
    x ∈ (buildFacetIndex rs).durField b ↔
      ∃ r, (x, r) ∈ rs ∧ durBucket (r.durationTotal.getD 0) = b := by
  unfold buildFacetIndex
  rw [mem_foldl_durField]
  have hinit : x ∈ FacetIndex.init.durField b ↔ False := by
    fin_cases b <;> simp [FacetIndex.init, FacetIndex.durField]
  rw [hinit]
  simp

theorem durField_zero (fi : FacetIndex) : fi.durField 0 = fi.dur_quick := rfl

theorem durField_one (fi : FacetIndex) : fi.durField 1 = fi.dur_medium := rfl

theorem durField_two (fi : FacetIndex) : fi.durField 2 = fi.dur_long := rfl

/-- C10 counterexample: calling add_recipe twice with the same recipe id
and durations 10 and 40 leaves the id in both the quick and the medium
bucket, so after this sequence of add_recipe calls the buckets are not
pairwise disjoint. -/
theorem facet_duration_buckets_counterexample :
    (buildFacetIndex [("r1", ⟨none, none, none, none, none, [], some 10⟩),
        ("r1", ⟨none, none, none, none, none, [], some 40⟩)]).dur_quick ∩
      (buildFacetIndex [("r1", ⟨none, none, none, none, none, [], some 10⟩),
        ("r1", ⟨none, none, none, none, none, [], some 40⟩)]).dur_medium ≠ ∅ := by
  decide

/-- C10 amended: after any sequence of add_recipe calls whose recipe ids
are pairwise distinct, the quick, medium and long duration sets are
pairwise disjoint and their union is the set of all indexed recipe ids;
moreover a recipe whose duration (or its total) is missing is treated as
total 0 and bucketed as quick. -/
theorem facet_duration_buckets_partition (rs : List (String × Recipe))
    (h : (rs.map Prod.fst).Nodup) :
    ((buildFacetIndex rs).dur_quick ∩ (buildFacetIndex rs).dur_medium = ∅ ∧
      (buildFacetIndex rs).dur_quick ∩ (buildFacetIndex rs).dur_long = ∅ ∧
      (buildFacetIndex rs).dur_medium ∩ (buildFacetIndex rs).dur_long = ∅) ∧
    ((buildFacetIndex rs).dur_quick ∪ (buildFacetIndex rs).dur_medium ∪
        (buildFacetIndex rs).dur_long = (rs.map Prod.fst).toFinset) ∧
    (∀ rid r, (rid, r) ∈ rs → r.durationTotal = none →
      rid ∈ (buildFacetIndex rs).dur_quick) := by
  have hdisj : ∀ b1 b2 : Fin 3, b1 ≠ b2 →
      (buildFacetIndex rs).durField b1 ∩ (buildFacetIndex rs).durField b2 = ∅ := by
    intro b1 b2 hne
    ext x
    simp only [Finset.mem_inter, Finset.not_mem_empty, iff_false, not_and]
    intro h1 h2
    rw [mem_buildFacetIndex_durField] at h1 h2
    obtain ⟨r1, hr1, hb1⟩ := h1
    obtain ⟨r2, hr2, hb2⟩ := h2
    have heq : (x, r1) = (x, r2) := List.inj_on_of_nodup_map h hr1 hr2 rfl
    have : r1 = r2 := congrArg Prod.snd heq
    exact hne (hb1 ▸ this ▸ hb2 ▸ rfl)
  refine ⟨⟨?_, ?_, ?_⟩, ?_, ?_⟩
  · exact durField_zero _ ▸ durField_one _ ▸ hdisj 0 1 (by decide)
  · exact durField_zero _ ▸ durField_two _ ▸ hdisj 0 2 (by decide)
  · exact durField_one _ ▸ durField_two _ ▸ hdisj 1 2 (by decide)
  · ext x
    simp only [Finset.mem_union, List.mem_toFinset, List.mem_map]
    constructor
    · have hchar : ∀ b : Fin 3, x ∈ (buildFacetIndex rs).durField b →
          ∃ a, a ∈ rs ∧ a.1 = x := by
        intro b hb
        rw [mem_buildFacetIndex_durField] at hb
        obtain ⟨r, hr, _⟩ := hb
        exact ⟨(x, r), hr, rfl⟩
      rintro ((h1 | h2) | h3)
      · exact hchar 0 (durField_zero _ ▸ h1)
      · exact hchar 1 (durField_one _ ▸ h2)
      · exact hchar 2 (durField_two _ ▸ h3)
    · rintro ⟨⟨x2, r⟩, hmem, rfl⟩
      have hx : (x2, r).1 ∈ (buildFacetIndex rs).durField
          (durBucket (r.durationTotal.getD 0)) := by
        rw [mem_buildFacetIndex_durField]
        exact ⟨r, hmem, rfl⟩
      generalize hb : durBucket (r.durationTotal.getD 0) = b at hx
      fin_cases b
      · exact Or.inl (Or.inl (durField_zero _ ▸ hx))
      · exact Or.inl (Or.inr (durField_one _ ▸ hx))
      · exact Or.inr (durField_two _ ▸ hx)
  · intro rid r hmem hnone
    have : rid ∈ (buildFacetIndex rs).durField 0 := by
      rw [mem_buildFacetIndex_durField]
      exact ⟨r, hmem, by rw [hnone]; decide⟩
    exact durField_zero _ ▸ this

/-- C10 witness: a two-recipe corpus with distinct ids, one with a missing
duration and one long recipe. -/
theorem facet_duration_buckets_partition_witness :
    ((buildFacetIndex [("a", ⟨none, none, none, none, none, [], none⟩),
        ("b", ⟨none, none, none, none, none, [], some 90⟩)]).dur_quick ∩
      (buildFacetIndex [("a", ⟨none, none, none, none, none, [], none⟩),
        ("b", ⟨none, none, none, none, none, [], some 90⟩)]).dur_medium = ∅ ∧
      (buildFacetIndex [("a", ⟨none, none, none, none, none, [], none⟩),
        ("b", ⟨none, none, none, none, none, [], some 90⟩)]).dur_quick ∩
      (buildFacetIndex [("a", ⟨none, none, none, none, none, [], none⟩),
        ("b", ⟨none, none, none, none, none, [], some 90⟩)]).dur_long = ∅ ∧
      (buildFacetIndex [("a", ⟨none, none, none, none, none, [], none⟩),
        ("b", ⟨none, none, none, none, none, [], some 90⟩)]).dur_medium ∩
      (buildFacetIndex [("a", ⟨none, none, none, none, none, [], none⟩),
        ("b", ⟨none, none, none, none, none, [], some 90⟩)]).dur_long = ∅) ∧
    ((buildFacetIndex [("a", ⟨none, none, none, none, none, [], none⟩),
        ("b", ⟨none, none, none, none, none, [], some 90⟩)]).dur_quick ∪
      (buildFacetIndex [("a", ⟨none, none, none, none, none, [], none⟩),
        ("b", ⟨none, none, none, none, none, [], some 90⟩)]).dur_medium ∪
      (buildFacetIndex [("a", ⟨none, none, none, none, none, [], none⟩),
        ("b", ⟨none, none, none, none, none, [], some 90⟩)]).dur_long =
      ([("a", (⟨none, none, none, none, none, [], none⟩ : Recipe)),
        ("b", ⟨none, none, none, none, none, [], some 90⟩)].map Prod.fst).toFinset) ∧
    (∀ rid r,
      (rid, r) ∈ [("a", (⟨none, none, none, none, none, [], none⟩ : Recipe)),
        ("b", ⟨none, none, none, none, none, [], some 90⟩)] →
      r.durationTotal = none →
      rid ∈ (buildFacetIndex [("a", ⟨none, none, none, none, none, [], none⟩),
        ("b", ⟨none, none, none, none, none, [], some 90⟩)]).dur_quick) :=
  facet_duration_buckets_partition _ (by decide)

/-! Order-free characterization of filter_recipes, for C6. -/

/-- Whether an id passes one exact-match facet criterion. -/
def passFacetCrit (idx : Dict (Finset String)) (crit : Option String) (x : String) : Bool :=
  match crit with
  | some v => if v ≠ "" then decide (x ∈ dgetD idx v) else true
  | none => true

/-- Whether an id passes the max_time criterion. -/
def passMaxTime (fi : FacetIndex) (crit : Option Int) (x : String) : Bool :=
  match crit with
  | some t =>
      if t ≠ 0 then decide (x ∈ fi.dur_quick ∪ (if 30 ≤ t then fi.dur_medium else ∅))
      else true
  | none => true

/-- Whether an id passes the required-ingredients criterion. -/
def passIngredients (idx : Dict (Finset String)) (crit : Option (List String)) (x : String) : Bool :=
  match crit with
  | some l =>
      if l ≠ [] then l.all (fun ing => decide (x ∈ dgetD idx (stripLower ing)))
      else true
  | none => true

/-- Whether an id passes the excluded-ingredients criterion. -/
def passExclude (idx : Dict (Finset String)) (crit : Option (List String)) (x : String) : Bool :=
  match crit with
  | some l =>
      if l ≠ [] then l.all (fun ing => decide (x ∉ dgetD idx (stripLower ing)))
      else true
  | none => true

/-- Conjunction of all criteria of a criteria dictionary, one independent
predicate per dimension. -/
def facetPass (fi : FacetIndex) (f : Filters) (x : String) : Bool :=
  passFacetCrit fi.country_index f.country x &&
  passFacetCrit fi.category_index f.category x &&
  passFacetCrit fi.difficulty_index f.difficulty x &&
  passFacetCrit fi.meal_type_index f.meal_type x &&
  passFacetCrit fi.cooking_method_index f.cooking_method x &&
  passMaxTime fi f.max_time x &&
  passIngredients fi.ingredient_index f.ingredients x &&
  passExclude fi.ingredient_index f.exclude_ingredients x

/-- The base universe filter_recipes starts from. -/
def facetBase (fi : FacetIndex) : Finset String :=
  if fi.country_index = [] ∧ fi.category_index = [] then ∅
  else if fi.country_index ≠ [] then dvalsUnion fi.country_index
  else if fi.category_index ≠ [] then dvalsUnion fi.category_index
  else if fi.difficulty_index ≠ [] then dvalsUnion fi.difficulty_index
  else ∅

theorem mem_applyFacetCrit (idx : Dict (Finset String)) (crit : Option String)
    (ids : Finset String) (x : String) :
    x ∈ applyFacetCrit idx crit ids ↔ x ∈ ids ∧ passFacetCrit idx crit x = true := by
  cases crit with
  | none => simp [applyFacetCrit, passFacetCrit]
  | some v => by_cases h : v = "" <;> simp [applyFacetCrit, passFacetCrit, h]

theorem mem_applyMaxTime (fi : FacetIndex) (crit : Option Int)
    (ids : Finset String) (x : String) :
    x ∈ applyMaxTime fi crit ids ↔ x ∈ ids ∧ passMaxTime fi crit x = true := by
  cases crit with
  | none => simp [applyMaxTime, passMaxTime]
  | some t => by_cases h : t = 0 <;> simp [applyMaxTime, passMaxTime, h]

theorem mem_foldl_inter (idx : Dict (Finset String)) (l : List String) :
    ∀ (ids : Finset String) (x : String),
    (x ∈ l.foldl (fun acc ing => acc ∩ dgetD idx (stripLower ing)) ids ↔
      x ∈ ids ∧ ∀ ing ∈ l, x ∈ dgetD idx (stripLower ing)) := by
  induction l with
  | nil => intro ids x; simp
  | cons ing rest ih =>
      intro ids x
      rw [List.foldl_cons, ih]
      simp only [Finset.mem_inter, List.mem_cons]
      constructor
      · rintro ⟨⟨h1, h2⟩, h3⟩
        exact ⟨h1, fun i hi => hi.elim (fun he => he ▸ h2) (h3 i)⟩
      · rintro ⟨h1, h2⟩
        exact ⟨⟨h1, h2 ing (Or.inl rfl)⟩, fun i hi => h2 i (Or.inr hi)⟩

theorem mem_foldl_sdiff (idx : Dict (Finset String)) (l : List String) :
    ∀ (ids : Finset String) (x : String),
    (x ∈ l.foldl (fun acc ing => acc \ dgetD idx (stripLower ing)) ids ↔
      x ∈ ids ∧ ∀ ing ∈ l, x ∉ dgetD idx (stripLower ing)) := by
  induction l with
  | nil => intro ids x; simp
  | cons ing rest ih =>
      intro ids x
      rw [List.foldl_cons, ih]
      simp only [Finset.mem_sdiff, List.mem_cons]
      constructor
      · rintro ⟨⟨h1, h2⟩, h3⟩
        exact ⟨h1, fun i hi => hi.elim (fun he => he ▸ h2) (h3 i)⟩
      · rintro ⟨h1, h2⟩
        exact ⟨⟨h1, h2 ing (Or.inl rfl)⟩, fun i hi => h2 i (Or.inr hi)⟩

theorem mem_applyIngredientsCrit (idx : Dict (Finset String)) (crit : Option (List String))
    (ids : Finset String) (x : String) :
    x ∈ applyIngredientsCrit idx crit ids ↔
      x ∈ ids ∧ passIngredients idx crit x = true := by
  cases crit with
  | none => simp [applyIngredientsCrit, passIngredients]
  | some l =>
      by_cases h : l = []
      · simp [applyIngredientsCrit, passIngredients, h]
      · simp only [applyIngredientsCrit, passIngredients, if_neg h, ne_eq, h,
          not_false_iff, if_true, mem_foldl_inter, List.all_eq_true,
          decide_eq_true_iff]

theorem mem_applyExcludeCrit (idx : Dict (Finset String)) (crit : Option (List String))
    (ids : Finset String) (x : String) :
    x ∈ applyExcludeCrit idx crit ids ↔
      x ∈ ids ∧ passExclude idx crit x = true := by
  cases crit with
  | none => simp [applyExcludeCrit, passExclude]
  | some l =>
      by_cases h : l = []
      · simp [applyExcludeCrit, passExclude, h]
      · simp only [applyExcludeCrit, passExclude, if_neg h, ne_eq, h,
          not_false_iff, if_true, mem_foldl_sdiff, List.all_eq_true,
          decide_eq_true_iff]

/-- filter_recipes equals the base universe filtered by the conjunction of
independent per-criterion predicates; since Boolean conjunction is
commutative, the final set does not depend on the order in which the
criteria are applied. -/
theorem filter_recipes_eq_filter (fi : FacetIndex) (f : Filters) :
    fi.filter_recipes f = (facetBase fi).filter (fun x => facetPass fi f x = true) := by
  by_cases hg : fi.country_index = [] ∧ fi.category_index = []
  · simp [FacetIndex.filter_recipes, facetBase, hg]
  · ext x
    simp only [FacetIndex.filter_recipes, facetBase, if_neg hg, Finset.mem_filter,
      mem_applyExcludeCrit, mem_applyIngredientsCrit, mem_applyMaxTime,
      mem_applyFacetCrit, facetPass, Bool.and_eq_true]
    tauto

/-- Criteria dictionary containment: every key present in f1 is present in
f2 with the same value (f2 may supply more constraints). -/
def Filters.contained (f1 f2 : Filters) : Prop :=
  (∀ v, f1.country = some v → f2.country = some v) ∧
  (∀ v, f1.category = some v → f2.category = some v) ∧
  (∀ v, f1.difficulty = some v → f2.difficulty = some v) ∧
  (∀ v, f1.meal_type = some v → f2.meal_type = some v) ∧
  (∀ v, f1.cooking_method = some v → f2.cooking_method = some v) ∧
  (∀ v, f1.max_time = some v → f2.max_time = some v) ∧
  (∀ v, f1.ingredients = some v → f2.ingredients = some v) ∧
  (∀ v, f1.exclude_ingredients = some v → f2.exclude_ingredients = some v)

theorem pass_mono {α : Type} (g : Option α → Bool) (hnone : g none = true)
    {c1 c2 : Option α} (h : ∀ v, c1 = some v → c2 = some v) :
    g c2 = true → g c1 = true := by
  cases c1 with
  | none => intro _; exact hnone
  | some v => rw [h v rfl]; exact id

/-- C6: for criteria dictionaries f1 contained in f2, the filter result of
f2 is a subset of the filter result of f1 (each extra criterion only
narrows), and filter_recipes is the base universe filtered by an
order-independent conjunction of per-criterion predicates. -/
theorem facet_filter_monotone_narrowing (fi : FacetIndex) (f1 f2 : Filters)
    (h : Filters.contained f1 f2) :
    fi.filter_recipes f2 ⊆ fi.filter_recipes f1 ∧
    fi.filter_recipes f1 =
      (facetBase fi).filter (fun x => facetPass fi f1 x = true) ∧
    fi.filter_recipes f2 =
      (facetBase fi).filter (fun x => facetPass fi f2 x = true) := by
  obtain ⟨h1, h2, h3, h4, h5, h6, h7, h8⟩ := h
  refine ⟨?_, filter_recipes_eq_filter fi f1, filter_recipes_eq_filter fi f2⟩
  intro x hx
  rw [filter_recipes_eq_filter, Finset.mem_filter] at hx ⊢
  obtain ⟨hb, hp⟩ := hx
  refine ⟨hb, ?_⟩
  simp only [facetPass, Bool.and_eq_true] at hp ⊢
  obtain ⟨⟨⟨⟨⟨⟨⟨p1, p2⟩, p3⟩, p4⟩, p5⟩, p6⟩, p7⟩, p8⟩ := hp
  exact ⟨⟨⟨⟨⟨⟨⟨pass_mono (fun c => passFacetCrit fi.country_index c x) rfl h1 p1,
    pass_mono (fun c => passFacetCrit fi.category_index c x) rfl h2 p2⟩,
    pass_mono (fun c => passFacetCrit fi.difficulty_index c x) rfl h3 p3⟩,
    pass_mono (fun c => passFacetCrit fi.meal_type_index c x) rfl h4 p4⟩,
    pass_mono (fun c => passFacetCrit fi.cooking_method_index c x) rfl h5 p5⟩,
    pass_mono (fun c => passMaxTime fi c x) rfl h6 p6⟩,
    pass_mono (fun c => passIngredients fi.ingredient_index c x) rfl h7 p7⟩,
    pass_mono (fun c => passExclude fi.ingredient_index c x) rfl h8 p8⟩

/-- C6 witness: a concrete two-recipe index, f1 constraining the country
and f2 additionally constraining the difficulty. -/
theorem facet_filter_monotone_narrowing_witness :
    (buildFacetIndex [("a", ⟨some "France", none, some "easy", none, none, [], none⟩),
        ("b", ⟨some "France", none, some "hard", none, none, [], none⟩)]).filter_recipes
        ⟨some "France", none, some "easy", none, none, none, none, none⟩ ⊆
      (buildFacetIndex [("a", ⟨some "France", none, some "easy", none, none, [], none⟩),
        ("b", ⟨some "France", none, some "hard", none, none, [], none⟩)]).filter_recipes
        ⟨some "France", none, none, none, none, none, none, none⟩ ∧
    (buildFacetIndex [("a", ⟨some "France", none, some "easy", none, none, [], none⟩),
        ("b", ⟨some "France", none, some "hard", none, none, [], none⟩)]).filter_recipes
        ⟨some "France", none, none, none, none, none, none, none⟩ =
      (facetBase (buildFacetIndex [("a", ⟨some "France", none, some "easy", none, none, [], none⟩),
        ("b", ⟨some "France", none, some "hard", none, none, [], none⟩)])).filter
        (fun x => facetPass (buildFacetIndex [("a", ⟨some "France", none, some "easy", none, none, [], none⟩),
          ("b", ⟨some "France", none, some "hard", none, none, [], none⟩)])
          ⟨some "France", none, none, none, none, none, none, none⟩ x = true) ∧
    (buildFacetIndex [("a", ⟨some "France", none, some "easy", none, none, [], none⟩),
        ("b", ⟨some "France", none, some "hard", none, none, [], none⟩)]).filter_recipes
        ⟨some "France", none, some "easy", none, none, none, none, none⟩ =
      (facetBase (buildFacetIndex [("a", ⟨some "France", none, some "easy", none, none, [], none⟩),
        ("b", ⟨some "France", none, some "hard", none, none, [], none⟩)])).filter
        (fun x => facetPass (buildFacetIndex [("a", ⟨some "France", none, some "easy", none, none, [], none⟩),
          ("b", ⟨some "France", none, some "hard", none, none, [], none⟩)])
          ⟨some "France", none, some "easy", none, none, none, none, none⟩ x = true) :=
  facet_filter_monotone_narrowing _ _ _
    (by refine ⟨?_, ?_, ?_, ?_, ?_, ?_, ?_, ?_⟩ <;> intro v hv <;> first | exact hv | simp at hv)

/-! Inverted index (BackEnd/services/inverted_index.py). -/

/-- State of InvertedIndex relevant to search: the term posting dict.
A posting set is modelled as its (duplicate-free) iteration order, since
search both measures its size and iterates over it.  The preprocessing
pipeline (NLTK tokenizer, stop words, lemmatizer) is an external
collaborator, so search is embedded from the normalized query term list
that preprocess_text returns. -/
structure InvertedIndex where
  index : Dict (List String)

/-- Posting lists are Python sets: they hold no duplicates. -/
def InvertedIndex.wf (ii : InvertedIndex) : Prop :=
  ∀ p ∈ ii.index, (p.2 : List String).Nodup

/-- The score accumulation loop of InvertedIndex.search: for each query
term present in the index, every document of its posting set receives an
increment of 1 / (posting set size + 1). -/
def scoreFold (ii : InvertedIndex) (queryTerms : List String) : Dict ℚ :=
  queryTerms.foldl (fun acc t =>
    match dget ii.index t with
    | some s => s.foldl
        (fun acc2 rid => daddQ acc2 rid (1 / ((s.length : ℚ) + 1))) acc
    | none => acc) []

/-- InvertedIndex.search on an already-normalized query term list: an
empty term list short-circuits to an empty result; otherwise the
accumulated scores are sorted by descending score and truncated to top_k. -/
def InvertedIndex.search (ii : InvertedIndex) (queryTerms : List String) (top_k : ℕ) :
    List (String × ℚ) :=
  if queryTerms = [] then []
  else (sortByScoreDesc (scoreFold ii queryTerms)).take top_k

/-- The documented per-document score: the sum over query terms (with
multiplicity) whose posting set contains the document of
1 / (posting set size + 1). -/
def termScoreSum (ii : InvertedIndex) (queryTerms : List String) (d : String) : ℚ :=
  (queryTerms.map (fun t =>
    match dget ii.index t with
    | some s => if d ∈ s then 1 / ((s.length : ℚ) + 1) else 0
    | none => 0)).sum

/-- Whether a document matches at least one query term present in the index. -/
def matchesSomeTerm (ii : InvertedIndex) (queryTerms : List String) (d : String) : Bool :=
  queryTerms.any (fun t =>
    match dget ii.index t with
    | some s => decide (d ∈ s)
    | none => false)

/-! Lookup lemmas for the score dict. -/

theorem dget_daddQ_self (acc : Dict ℚ) (k : String) (v : ℚ) :
    dget (daddQ acc k v) k = some ((dget acc k).getD 0 + v) := by
  induction acc with
  | nil => simp [daddQ, dget]
  | cons p rest ih =>
      obtain ⟨k2, w⟩ := p
      by_cases h : k2 = k <;> simp [daddQ, dget, h, ih]

theorem dget_daddQ_other (acc : Dict ℚ) (k k2 : String) (v : ℚ) (h : k2 ≠ k) :
    dget (daddQ acc k v) k2 = dget acc k2 := by
  have hne : ¬(k = k2) := fun he => h he.symm
  induction acc with
  | nil => simp [daddQ, dget, hne]
  | cons p rest ih =>
      obtain ⟨k3, w⟩ := p
      by_cases h3 : k3 = k
      · subst h3
        simp [daddQ, dget, hne]
      · by_cases h32 : k3 = k2 <;> simp [daddQ, dget, h3, h32, ih, h]

theorem dget_foldl_daddQ (l : List String) (v : ℚ) : ∀ (acc : Dict ℚ) (d : String),
    l.Nodup →
    dget (l.foldl (fun acc2 rid => daddQ acc2 rid v) acc) d =
      if d ∈ l then some ((dget acc d).getD 0 + v) else dget acc d := by
  induction l with
  | nil => intro acc d _; simp
  | cons rid rest ih =>
      intro acc d hnd
      rw [List.foldl_cons, ih _ _ (List.Nodup.of_cons hnd)]
      by_cases hd : d = rid
      · subst hd
        have hnotin : d ∉ rest := (List.nodup_cons.mp hnd).1
        rw [if_neg hnotin, if_pos (List.mem_cons_self _ _), dget_daddQ_self]
      · rw [dget_daddQ_other _ _ _ _ hd]
        by_cases hr : d ∈ rest
        · rw [if_pos hr, if_pos (List.mem_cons_of_mem _ hr)]
        · rw [if_neg hr, if_neg (by simp [hd, hr])]

theorem dget_mem {α : Type} (l : Dict α) (k : String) (v : α)
    (h : dget l k = some v) : (k, v) ∈ l := by
  induction l with
  | nil => simp [dget] at h
  | cons p rest ih =>
      obtain ⟨k2, w⟩ := p
      by_cases h2 : k2 = k
      · subst h2
        have hw : w = v := by simpa [dget] using h
        exact List.mem_cons.mpr (Or.inl (by rw [hw]))
      · simp only [dget, if_neg h2] at h
        exact List.mem_cons_of_mem _ (ih h)

theorem dget_scoreFold_loop (ii : InvertedIndex) (hwf : ii.wf) (qts : List String) :
    ∀ (acc : Dict ℚ) (d : String),
    dget (qts.foldl (fun acc t =>
        match dget ii.index t with
        | some s => s.foldl
            (fun acc2 rid => daddQ acc2 rid (1 / ((s.length : ℚ) + 1))) acc
        | none => acc) acc) d =
      if ((dget acc d).isSome || matchesSomeTerm ii qts d) = true then
        some ((dget acc d).getD 0 + termScoreSum ii qts d)
      else none := by
  induction qts with
  | nil =>
      intro acc d
      cases h : dget acc d <;>
        simp [h, termScoreSum, matchesSomeTerm]
  | cons t rest ih =>
      intro acc d
      rw [List.foldl_cons]
      cases hidx : dget ii.index t with
      | none =>
          rw [ih]
          simp only [matchesSomeTerm, List.any_cons, hidx, Bool.false_or,
            termScoreSum, List.map_cons, List.sum_cons, zero_add]
      | some s =>
          have hnd : s.Nodup := hwf (t, s) (dget_mem _ _ _ hidx)
          rw [ih, dget_foldl_daddQ s _ acc d hnd]
          simp only [matchesSomeTerm, List.any_cons, hidx, termScoreSum,
            List.map_cons, List.sum_cons]
          by_cases hds : d ∈ s
          · simp only [if_pos hds, decide_eq_true hds]
            simp [add_assoc]
          · simp only [if_neg hds, decide_eq_false hds, Bool.false_or, zero_add]

theorem mem_keys_daddQ (acc : Dict ℚ) (k : String) (v : ℚ) (x : String) :
    x ∈ (daddQ acc k v).map Prod.fst ↔ x ∈ acc.map Prod.fst ∨ x = k := by
  induction acc with
  | nil => simp [daddQ]
  | cons p rest ih =>
      obtain ⟨k2, w⟩ := p
      by_cases h : k2 = k <;> simp [daddQ, h, ih] <;> tauto

theorem keys_nodup_daddQ (acc : Dict ℚ) (k : String) (v : ℚ) :
    (acc.map Prod.fst).Nodup → ((daddQ acc k v).map Prod.fst).Nodup := by
  induction acc with
  | nil => intro _; simp [daddQ]
  | cons p rest ih =>
      obtain ⟨k2, w⟩ := p
      intro h
      rw [List.map_cons, List.nodup_cons] at h
      obtain ⟨hnot, hnd⟩ := h
      by_cases hk : k2 = k
      · simp only [daddQ, if_pos hk, List.map_cons, List.nodup_cons]
        exact ⟨hnot, hnd⟩
      · simp only [daddQ, if_neg hk, List.map_cons, List.nodup_cons]
        refine ⟨?_, ih hnd⟩
        rw [mem_keys_daddQ]
        rintro (hmem | he)
        · exact hnot hmem
        · exact hk he

theorem keys_nodup_foldl_daddQ (l : List String) (v : ℚ) :
    ∀ acc : Dict ℚ, (acc.map Prod.fst).Nodup →
    ((l.foldl (fun acc2 rid => daddQ acc2 rid v) acc).map Prod.fst).Nodup := by
  induction l with
  | nil => intro acc h; exact h
  | cons rid rest ih =>
      intro acc h
      rw [List.foldl_cons]
      exact ih _ (keys_nodup_daddQ _ _ _ h)

theorem keys_nodup_scoreFold (ii : InvertedIndex) (qts : List String) :
    ((scoreFold ii qts).map Prod.fst).Nodup := by
  unfold scoreFold
  have hgen : ∀ acc : Dict ℚ, (acc.map Prod.fst).Nodup →
      ((qts.foldl (fun acc t =>
        match dget ii.index t with
        | some s => s.foldl
            (fun acc2 rid => daddQ acc2 rid (1 / ((s.length : ℚ) + 1))) acc
        | none => acc) acc).map Prod.fst).Nodup := by
    induction qts with
    | nil => intro acc h; exact h
    | cons t rest ih =>
        intro acc h
        rw [List.foldl_cons]
        cases hidx : dget ii.index t with
        | none => simp only [hidx]; exact ih acc h
        | some s => simp only [hidx]; exact ih _ (keys_nodup_foldl_daddQ s _ acc h)
  exact hgen [] (by simp)

theorem dget_of_mem {α : Type} (l : Dict α) (k : String) (v : α)
    (hmem : (k, v) ∈ l) (hnd : (l.map Prod.fst).Nodup) : dget l k = some v := by
  induction l with
  | nil => simp at hmem
  | cons p rest ih =>
      obtain ⟨k2, w⟩ := p
      rw [List.map_cons, List.nodup_cons] at hnd
      rcases List.mem_cons.mp hmem with he | hm
      · have h1 : k = k2 := congrArg Prod.fst he
        have h2 : v = w := congrArg Prod.snd he
        simp [dget, h1.symm, h2]
      · by_cases hk : k2 = k
        · exfalso
          apply hnd.1
          subst hk
          exact List.mem_map.mpr ⟨(k2, v), hm, rfl⟩
        · simp only [dget, if_neg hk]
          exact ih hm hnd.2

theorem insertDesc_perm (x : String × ℚ) (l : List (String × ℚ)) :
    (insertDesc x l).Perm (x :: l) := by
  induction l with
  | nil => exact List.Perm.refl _
  | cons y ys ih =>
      by_cases h : y.2 ≤ x.2
      · simp [insertDesc, h]
      · simp only [insertDesc, if_neg h]
        exact (ih.cons y).trans (List.Perm.swap x y ys)

theorem sortByScoreDesc_perm (l : List (String × ℚ)) :
    (sortByScoreDesc l).Perm l := by
  induction l with
  | nil => exact List.Perm.refl _
  | cons x xs ih => exact (insertDesc_perm x (sortByScoreDesc xs)).trans (ih.cons x)

/-- C8: every document returned by InvertedIndex.search carries exactly the
score that sums, over the normalized query terms present in the index whose
posting set contains the document, the weight 1 / (posting set size + 1);
and a document matching no query term never appears in the returned list
(in particular it is never returned with score zero). -/
theorem lexical_search_scoring (ii : InvertedIndex) (hwf : ii.wf)
    (qts : List String) (k : ℕ) (d : String) (sc : ℚ) :
    ((d, sc) ∈ ii.search qts k →
        sc = termScoreSum ii qts d ∧ matchesSomeTerm ii qts d = true) ∧
    (matchesSomeTerm ii qts d = false → ∀ s2 : ℚ, (d, s2) ∉ ii.search qts k) := by
  have hdget : ∀ s2 : ℚ, (d, s2) ∈ ii.search qts k →
      dget (scoreFold ii qts) d = some s2 := by
    intro s2 hmem
    unfold InvertedIndex.search at hmem
    by_cases hq : qts = []
    · rw [if_pos hq] at hmem
      simp at hmem
    · rw [if_neg hq] at hmem
      exact dget_of_mem _ _ _
        (((sortByScoreDesc_perm _).mem_iff).mp (List.mem_of_mem_take hmem))
        (keys_nodup_scoreFold ii qts)
  have hchar : dget (scoreFold ii qts) d =
      if matchesSomeTerm ii qts d = true then some (termScoreSum ii qts d)
      else none := by
    unfold scoreFold
    rw [dget_scoreFold_loop ii hwf qts [] d]
    simp [dget]
  constructor
  · intro hmem
    have h1 := hdget sc hmem
    rw [hchar] at h1
    by_cases hm : matchesSomeTerm ii qts d = true
    · rw [if_pos hm] at h1
      exact ⟨(Option.some_inj.mp h1).symm, hm⟩
    · rw [if_neg hm] at h1
      exact absurd h1 (by simp)
  · intro hM s2 hmem
    have h1 := hdget s2 hmem
    rw [hchar, hM] at h1
    simp at h1

/-- C8 witness: a single-term index with one posting; the returned score is
1/(1+1) and the document matches the term. -/
theorem lexical_search_scoring_witness :
    (1 : ℚ)/2 = termScoreSum ⟨[("chicken", ["r1"])]⟩ ["chicken"] "r1" ∧
      matchesSomeTerm ⟨[("chicken", ["r1"])]⟩ ["chicken"] "r1" = true := by
  refine (lexical_search_scoring ⟨[("chicken", ["r1"])]⟩ ?_ ["chicken"] 5 "r1" (1/2)).1 ?_
  · intro p hp
    simp only [List.mem_singleton] at hp
    rw [hp]
    simp
  · have hval : (⟨[("chicken", ["r1"])]⟩ : InvertedIndex).search ["chicken"] 5
        = [("r1", 1/2)] := by
      norm_num [InvertedIndex.search, scoreFold, dget, daddQ,
        sortByScoreDesc, insertDesc]
    rw [hval]
    exact List.mem_singleton.mpr rfl

/-! Hybrid search route (BackEnd/app.py, /api/search/hybrid). -/

/-- Weighted semantic partial scores: each semantic result receives
hybrid_score = semantic_score * 0.7. -/
def weightSemantic (l : List (String × ℚ)) : List (String × ℚ) :=
  l.map (fun p => (p.1, p.2 * (7/10)))

/-- Weighted lexical partial scores: each text result receives
hybrid_score = text_score * 0.3. -/
def weightText (l : List (String × ℚ)) : List (String × ℚ) :=
  l.map (fun p => (p.1, p.2 * (3/10)))

/-- First merge phase of the hybrid route: semantic results are stored in
the all_results dict under their id; results with a falsy (empty) id are
skipped. -/
def insertSemanticResults (sem : List (String × ℚ)) : Dict ℚ :=
  sem.foldl (fun acc p => if p.1 = "" then acc else dset acc p.1 p.2) []

/-- Second merge phase: each text result increments the hybrid_score of an
existing entry with the same id, or is appended as a new entry. -/
def mergeTextResults (acc : Dict ℚ) (txt : List (String × ℚ)) : Dict ℚ :=
  txt.foldl (fun acc p => daddQ acc p.1 p.2) acc

/-- The deduplicated merged score dict of the hybrid route, from the
already-weighted semantic and text result lists. -/
def mergedScores (semw txtw : List (String × ℚ)) : Dict ℚ :=
  mergeTextResults (insertSemanticResults semw) txtw

/-- The hybrid merge on raw sub-search scores: weight, then merge. -/
def hybridMerge (sem txt : List (String × ℚ)) : Dict ℚ :=
  mergedScores (weightSemantic sem) (weightText txt)

theorem dget_dset_self (acc : Dict ℚ) (k : String) (v : ℚ) :
    dget (dset acc k v) k = some v := by
  induction acc with
  | nil => simp [dset, dget]
  | cons p rest ih =>
      obtain ⟨k2, w⟩ := p
      by_cases h : k2 = k <;> simp [dset, dget, h, ih]

theorem dget_dset_other (acc : Dict ℚ) (k k2 : String) (v : ℚ) (h : k2 ≠ k) :
    dget (dset acc k v) k2 = dget acc k2 := by
  have hne : ¬(k = k2) := fun he => h he.symm
  induction acc with
  | nil => simp [dset, dget, hne]
  | cons p rest ih =>
      obtain ⟨k3, w⟩ := p
      by_cases h3 : k3 = k
      · subst h3
        simp [dset, dget, hne]
      · by_cases h32 : k3 = k2 <;> simp [dset, dget, h3, h32, ih, h]

theorem dget_insertSem_notmem (sem : List (String × ℚ)) :
    ∀ (acc : Dict ℚ) (d : String), d ∉ sem.map Prod.fst →
    dget (sem.foldl (fun acc p => if p.1 = "" then acc else dset acc p.1 p.2) acc) d
      = dget acc d := by
  induction sem with
  | nil => intro acc d _; rfl
  | cons p rest ih =>
      intro acc d hd
      rw [List.map_cons, List.mem_cons] at hd
      push_neg at hd
      rw [List.foldl_cons]
      by_cases hp : p.1 = ""
      · rw [if_pos hp]
        exact ih acc d hd.2
      · rw [if_neg hp, ih _ d hd.2, dget_dset_other _ _ _ _ hd.1]

theorem dget_insertSem_mem (sem : List (String × ℚ)) :
    (sem.map Prod.fst).Nodup → ∀ (d : String) (s : ℚ), (d, s) ∈ sem → d ≠ "" →
    ∀ acc : Dict ℚ,
    dget (sem.foldl (fun acc p => if p.1 = "" then acc else dset acc p.1 p.2) acc) d
      = some s := by
  induction sem with
  | nil => intro _ d s hmem; simp at hmem
  | cons p rest ih =>
      intro hnd d s hmem hd acc
      rw [List.map_cons, List.nodup_cons] at hnd
      rw [List.foldl_cons]
      rcases List.mem_cons.mp hmem with he | hm
      · have h1 : p.1 = d := (congrArg Prod.fst he).symm
        have h2 : p.2 = s := (congrArg Prod.snd he).symm
        rw [if_neg (h1 ▸ hd), dget_insertSem_notmem rest _ d (h1 ▸ hnd.1), h1, h2,
          dget_dset_self]
      · exact ih hnd.2 d s hm hd _

theorem dget_mergeText_notmem (txt : List (String × ℚ)) :
    ∀ (acc : Dict ℚ) (d : String), d ∉ txt.map Prod.fst →
    dget (mergeTextResults acc txt) d = dget acc d := by
  induction txt with
  | nil => intro acc d _; rfl
  | cons p rest ih =>
      intro acc d hd
      rw [List.map_cons, List.mem_cons] at hd
      push_neg at hd
      rw [mergeTextResults, List.foldl_cons]
      rw [show List.foldl (fun acc p => daddQ acc p.1 p.2) (daddQ acc p.1 p.2) rest
          = mergeTextResults (daddQ acc p.1 p.2) rest from rfl]
      rw [ih _ d hd.2, dget_daddQ_other _ _ _ _ hd.1]

theorem dget_mergeText_mem (txt : List (String × ℚ)) :
    (txt.map Prod.fst).Nodup → ∀ (d : String) (l : ℚ), (d, l) ∈ txt →
    ∀ acc : Dict ℚ,
    dget (mergeTextResults acc txt) d = some ((dget acc d).getD 0 + l) := by
  induction txt with
  | nil => intro _ d l hmem; simp at hmem
  | cons p rest ih =>
      intro hnd d l hmem acc
      rw [List.map_cons, List.nodup_cons] at hnd
      rw [mergeTextResults, List.foldl_cons]
      rw [show List.foldl (fun acc p => daddQ acc p.1 p.2) (daddQ acc p.1 p.2) rest
          = mergeTextResults (daddQ acc p.1 p.2) rest from rfl]
      rcases List.mem_cons.mp hmem with he | hm
      · have h1 : p.1 = d := (congrArg Prod.fst he).symm
        have h2 : p.2 = l := (congrArg Prod.snd he).symm
        rw [dget_mergeText_notmem rest _ d (h1 ▸ hnd.1), h1, h2, dget_daddQ_self]
      · have hd1 : d ≠ p.1 := by
          intro he2
          exact hnd.1 (he2 ▸ List.mem_map.mpr ⟨(d, l), hm, rfl⟩)
        rw [ih hnd.2 d l hm _, dget_daddQ_other _ _ _ _ hd1]

theorem keys_weightSemantic (l : List (String × ℚ)) :
    (weightSemantic l).map Prod.fst = l.map Prod.fst := by
  simp [weightSemantic]

theorem keys_weightText (l : List (String × ℚ)) :
    (weightText l).map Prod.fst = l.map Prod.fst := by
  simp [weightText]

/-- C1: in the hybrid merge, a document id present in both the semantic
and the lexical result list receives combined score s*0.7 + l*0.3 (the
weighted partial scores are summed, not replaced); a document present in
only one list keeps that single weighted partial score; and the spec
example s = 0.8, l = 0.5 yields exactly 0.71. -/
theorem hybrid_merge_sums_partial_scores (sem txt : List (String × ℚ))
    (hs : (sem.map Prod.fst).Nodup) (ht : (txt.map Prod.fst).Nodup)
    (d : String) (hd : d ≠ "") :
    (∀ s l : ℚ, (d, s) ∈ sem → (d, l) ∈ txt →
      dget (hybridMerge sem txt) d = some (s * (7/10) + l * (3/10))) ∧
    (∀ s : ℚ, (d, s) ∈ sem → d ∉ txt.map Prod.fst →
      dget (hybridMerge sem txt) d = some (s * (7/10))) ∧
    (∀ l : ℚ, (d, l) ∈ txt → d ∉ sem.map Prod.fst →
      dget (hybridMerge sem txt) d = some (l * (3/10))) ∧
    dget (hybridMerge [("d1", 8/10)] [("d1", 5/10)]) "d1" = some (71/100) := by
  refine ⟨?_, ?_, ?_, ?_⟩
  · intro s l hsm htm
    have hsw : (d, s * (7/10)) ∈ weightSemantic sem :=
      List.mem_map.mpr ⟨(d, s), hsm, rfl⟩
    have htw : (d, l * (3/10)) ∈ weightText txt :=
      List.mem_map.mpr ⟨(d, l), htm, rfl⟩
    unfold hybridMerge mergedScores
    rw [dget_mergeText_mem _ (by rw [keys_weightText]; exact ht) d _ htw]
    unfold insertSemanticResults
    rw [dget_insertSem_mem _ (by rw [keys_weightSemantic]; exact hs) d _ hsw hd]
    rfl
  · intro s hsm htnot
    have hsw : (d, s * (7/10)) ∈ weightSemantic sem :=
      List.mem_map.mpr ⟨(d, s), hsm, rfl⟩
    unfold hybridMerge mergedScores
    rw [dget_mergeText_notmem _ _ d (by rw [keys_weightText]; exact htnot)]
    unfold insertSemanticResults
    rw [dget_insertSem_mem _ (by rw [keys_weightSemantic]; exact hs) d _ hsw hd]
  · intro l htm hsnot
    have htw : (d, l * (3/10)) ∈ weightText txt :=
      List.mem_map.mpr ⟨(d, l), htm, rfl⟩
    unfold hybridMerge mergedScores
    rw [dget_mergeText_mem _ (by rw [keys_weightText]; exact ht) d _ htw]
    unfold insertSemanticResults
    rw [dget_insertSem_notmem _ _ d (by rw [keys_weightSemantic]; exact hsnot)]
    simp [dget]
  · norm_num [hybridMerge, mergedScores, weightSemantic, weightText,
      insertSemanticResults, mergeTextResults, dset, daddQ, dget]

/-- C1 witness: one document in both lists with raw scores 1 and 2. -/
theorem hybrid_merge_sums_partial_scores_witness :
    dget (hybridMerge [("x", (1 : ℚ))] [("x", (2 : ℚ))]) "x"
      = some ((1 : ℚ) * (7/10) + (2 : ℚ) * (3/10)) :=
  (hybrid_merge_sums_partial_scores [("x", (1 : ℚ))] [("x", (2 : ℚ))]
      (by decide) (by decide) "x" (by decide)).1 1 2
    (List.mem_singleton.mpr rfl) (List.mem_singleton.mpr rfl)

/-- A Python exception escaping a route handler. -/
inductive PyError where
  | typeError
deriving DecidableEq

/-- Availability state of the hybrid route.  The semantic sub-search is an
external collaborator (FAISS + embedding model), so it is abstracted by
the ranked (id, semantic_score) list it returns for the query; none models
app.faiss_service = None.  The lexical side is the embedded InvertedIndex;
none models app.inverted_index = None.  hasFacet records whether
app.facet_index exists. -/
structure HybridApp where
  faiss : Option (List (String × ℚ))
  inv : Option InvertedIndex
  hasFacet : Bool

/-- The facet-filter loop of the hybrid route.  For each merged result
with a truthy id the route calls
facet_index.filter_recipes(filters, specific_ids = ...), but
filter_recipes accepts no specific_ids keyword, so the first such call
raises TypeError; results with a falsy id short-circuit the condition and
are dropped. -/
def hybridFacetLoop : List (String × ℚ) → Except PyError (List (String × ℚ))
  | [] => Except.ok []
  | (rid, _) :: rest =>
      if rid = "" then hybridFacetLoop rest else Except.error PyError.typeError

/-- The /api/search/hybrid handler after query validation, on the
normalized query term list qts.  Weighted semantic and lexical results are
merged into the deduplicated score dict, sorted by descending hybrid
score; when a facet index exists and criteria were supplied the
facet-filter loop runs; the handler answers with the first 20 results.
(Lexical result ids are looked up in the recipe store; every indexed id
originates from that store, so the lookup is modelled as always found.) -/
def hybrid_search (app : HybridApp) (qts : List String) (hasFilters : Bool) :
    Except PyError (List (String × ℚ)) :=
  let semResults := match app.faiss with
    | some res => weightSemantic res
    | none => []
  let textResults := match app.inv with
    | some ii => weightText (ii.search qts 30)
    | none => []
  let ranked := sortByScoreDesc (mergedScores semResults textResults)
  if app.hasFacet && hasFilters then
    (hybridFacetLoop ranked).map (fun l => l.take 20)
  else
    Except.ok (ranked.take 20)

/-- C2: with a facet index present, facet criteria supplied, and at least
one merged result, the hybrid route raises TypeError instead of
intersecting with the facet filter result: filter_recipes does not accept
the specific_ids keyword argument the route passes. -/
theorem hybrid_facet_filter_raises_typeerror :
    hybrid_search ⟨some [("r1", 1)], some ⟨[]⟩, true⟩ ["chicken"] true
      = Except.error PyError.typeError := rfl

theorem dset_append (acc : Dict ℚ) (k : String) (v : ℚ)
    (h : k ∉ acc.map Prod.fst) : dset acc k v = acc ++ [(k, v)] := by
  induction acc with
  | nil => rfl
  | cons p rest ih =>
      rw [List.map_cons, List.mem_cons] at h
      push_neg at h
      obtain ⟨k2, w⟩ := p
      simp only [dset, List.cons_append]
      rw [if_neg (fun he => h.1 he.symm), ih h.2]

theorem daddQ_append (acc : Dict ℚ) (k : String) (v : ℚ)
    (h : k ∉ acc.map Prod.fst) : daddQ acc k v = acc ++ [(k, v)] := by
  induction acc with
  | nil => rfl
  | cons p rest ih =>
      rw [List.map_cons, List.mem_cons] at h
      push_neg at h
      obtain ⟨k2, w⟩ := p
      simp only [daddQ, List.cons_append]
      rw [if_neg (fun he => h.1 he.symm), ih h.2]

theorem mergeTextResults_of_disjoint (txt : List (String × ℚ)) :
    ∀ acc : Dict ℚ, (txt.map Prod.fst).Nodup →
    (∀ x ∈ txt.map Prod.fst, x ∉ acc.map Prod.fst) →
    mergeTextResults acc txt = acc ++ txt := by
  induction txt with
  | nil => intro acc _ _; simp [mergeTextResults]
  | cons p rest ih =>
      intro acc hnd hdisj
      rw [List.map_cons, List.nodup_cons] at hnd
      rw [mergeTextResults, List.foldl_cons,
        show List.foldl (fun acc p => daddQ acc p.1 p.2) (daddQ acc p.1 p.2) rest
          = mergeTextResults (daddQ acc p.1 p.2) rest from rfl]
      rw [daddQ_append _ _ _ (hdisj p.1 (by simp))]
      rw [ih _ hnd.2 ?_]
      · simp
      · intro x hx
        simp only [List.map_append, List.mem_append, List.map_cons, List.map_nil,
          List.mem_singleton]
        rintro (hxa | hxp)
        · exact hdisj x (by simp [hx]) hxa
        · exact hnd.1 (hxp ▸ hx)

theorem insertSem_loop_of_disjoint (sem : List (String × ℚ)) :
    ∀ acc : Dict ℚ, (sem.map Prod.fst).Nodup →
    (∀ x ∈ sem.map Prod.fst, x ∉ acc.map Prod.fst) →
    (∀ p ∈ sem, p.1 ≠ "") →
    sem.foldl (fun acc p => if p.1 = "" then acc else dset acc p.1 p.2) acc
      = acc ++ sem := by
  induction sem with
  | nil => intro acc _ _ _; simp
  | cons p rest ih =>
      intro acc hnd hdisj hne
      rw [List.map_cons, List.nodup_cons] at hnd
      rw [List.foldl_cons, if_neg (hne p (List.mem_cons_self _ _))]
      rw [dset_append _ _ _ (hdisj p.1 (by simp))]
      rw [ih _ hnd.2 ?_ (fun q hq => hne q (List.mem_cons_of_mem _ hq))]
      · simp
      · intro x hx
        simp only [List.map_append, List.mem_append, List.map_cons, List.map_nil,
          List.mem_singleton]
        rintro (hxa | hxp)
        · exact hdisj x (by simp [hx]) hxa
        · exact hnd.1 (hxp ▸ hx)

theorem insertSemanticResults_eq_self (sem : List (String × ℚ))
    (hnd : (sem.map Prod.fst).Nodup) (hne : ∀ p ∈ sem, p.1 ≠ "") :
    insertSemanticResults sem = sem := by
  unfold insertSemanticResults
  rw [insertSem_loop_of_disjoint sem [] hnd (by simp) hne]
  simp

theorem keys_nodup_search (ii : InvertedIndex) (qts : List String) (k : ℕ) :
    ((ii.search qts k).map Prod.fst).Nodup := by
  unfold InvertedIndex.search
  by_cases hq : qts = []
  · simp [hq]
  · rw [if_neg hq]
    have hnd : ((sortByScoreDesc (scoreFold ii qts)).map Prod.fst).Nodup :=
      (((sortByScoreDesc_perm (scoreFold ii qts)).map Prod.fst).nodup_iff).mpr
        (keys_nodup_scoreFold ii qts)
    exact hnd.sublist ((List.take_sublist _ _).map Prod.fst)

/-- C9: if exactly one of the semantic and lexical sub-indexes is
available and no facet criteria accompany the (non-empty) query, the
hybrid route still succeeds, returning the ranked weighted partial scores
computed from the available sub-index alone rather than failing. -/
theorem hybrid_degrades_gracefully (res : List (String × ℚ)) (ii : InvertedIndex)
    (hasFacet : Bool) (qts : List String)
    (hres : (res.map Prod.fst).Nodup) (hne : ∀ p ∈ res, p.1 ≠ "") :
    hybrid_search ⟨none, some ii, hasFacet⟩ qts false
      = Except.ok ((sortByScoreDesc (weightText (ii.search qts 30))).take 20) ∧
    hybrid_search ⟨some res, none, hasFacet⟩ qts false
      = Except.ok ((sortByScoreDesc (weightSemantic res)).take 20) := by
  constructor
  · have hmerge : mergedScores [] (weightText (ii.search qts 30))
        = weightText (ii.search qts 30) := by
      unfold mergedScores insertSemanticResults
      simp only [List.foldl_nil]
      rw [mergeTextResults_of_disjoint _ []
        (by rw [keys_weightText]; exact keys_nodup_search ii qts 30) (by simp)]
      simp
    simp [hybrid_search, hmerge]
  · have hmerge : mergedScores (weightSemantic res) [] = weightSemantic res := by
      unfold mergedScores mergeTextResults
      simp only [List.foldl_nil]
      exact insertSemanticResults_eq_self _
        (by rw [keys_weightSemantic]; exact hres)
        (fun p hp => by
          obtain ⟨q, hq, hqe⟩ := List.mem_map.mp hp
          exact hqe ▸ hne q hq)
    simp [hybrid_search, hmerge]

/-- C9 witness: a one-term lexical index alone, and a one-result semantic
list alone. -/
theorem hybrid_degrades_gracefully_witness :
    hybrid_search ⟨none, some ⟨[("beef", ["r2"])]⟩, false⟩ ["beef"] false
      = Except.ok ((sortByScoreDesc (weightText
          ((⟨[("beef", ["r2"])]⟩ : InvertedIndex).search ["beef"] 30))).take 20) ∧
    hybrid_search ⟨some [("r9", (1 : ℚ))], none, false⟩ ["beef"] false
      = Except.ok ((sortByScoreDesc (weightSemantic [("r9", (1 : ℚ))])).take 20) :=
  hybrid_degrades_gracefully [("r9", (1 : ℚ))] ⟨[("beef", ["r2"])]⟩ false ["beef"]
    (by decide) (by decide)

/-! FAISS similarity service (BackEnd/services/faiss_service.py). -/

/-- Python dict read on the int-keyed index_to_id dict. -/
def iget : List (Int × String) → Int → Option String
  | [], _ => none
  | (k2, v) :: rest, k => if k2 = k then some v else iget rest k

/-- State of FaissService relevant to find_similar_recipes.  The embedding
model and the FAISS engine are external collaborators: neighbors idx n is
the (distance, faiss index) row list that self.index.search returns for
the stored vector at position idx with count n.  nrecipes is
len(self.recipes) and ntotal the FAISS index size. -/
structure FaissService where
  id_to_index : Dict ℕ
  index_to_id : List (Int × String)
  nrecipes : ℕ
  ntotal : ℕ
  neighbors : ℕ → ℕ → List (ℚ × Int)

/-- The result-collection loop of find_similar_recipes, with k the
remaining result budget.  Rows with an out-of-range FAISS index, an
unmapped or falsy id, or the query id itself are skipped; surviving rows
are emitted with similarity 1 / (1 + distance); after an emission the loop
breaks once the collected count reaches the requested k (for k = 0 the
source still appends one row before the length check fires). -/
def simLoop (fs : FaissService) (rid : String) :
    ℕ → List (ℚ × Int) → List (String × ℚ)
  | _, [] => []
  | k, (dist, idxr) :: rest =>
      if idxr < 0 ∨ (fs.nrecipes : Int) ≤ idxr then simLoop fs rid k rest
      else
        match iget fs.index_to_id idxr with
        | none => simLoop fs rid k rest
        | some rid2 =>
            if rid2 = "" ∨ rid2 = rid then simLoop fs rid k rest
            else if k ≤ 1 then [(rid2, 1 / (1 + dist))]
            else (rid2, 1 / (1 + dist)) :: simLoop fs rid (k - 1) rest

/-- FaissService.find_similar_recipes: an id absent from id_to_index logs
a warning and returns an empty list; otherwise the min(k+1, ntotal)
nearest neighbor rows of the stored vector are fetched and formatted,
skipping row 0 (the query vector itself) and every row whose mapped id is
falsy or equal to the query id. -/
def FaissService.find_similar_recipes (fs : FaissService) (rid : String) (k : ℕ) :
    List (String × ℚ) :=
  match dget fs.id_to_index rid with
  | none => []
  | some idx => simLoop fs rid k ((fs.neighbors idx (min (k + 1) fs.ntotal)).tail)

/-- C4 counterexample: find_similar_recipes on an id absent from the index
returns the ordinary empty list — no typed NotFound failure exists in this
code path (the function has no error channel at all), contradicting the
claim that an explicitly invalid identifier is surfaced as a typed
failure and never as a silent empty result. -/
theorem find_similar_absent_id_counterexample :
    dget (FaissService.mk [("a", 0)] [(0, "a")] 1 1 (fun _ _ => [])).id_to_index
        "nope" = none ∧
    (FaissService.mk [("a", 0)] [(0, "a")] 1 1
        (fun _ _ => [])).find_similar_recipes "nope" 5 = [] :=
  ⟨rfl, rfl⟩

/-- C4 amended: find_similar_recipes with a document id absent from the
semantic index silently returns an empty list (after only a log warning);
it raises no typed NotFound error. -/
theorem find_similar_absent_id_returns_empty (fs : FaissService) (rid : String)
    (k : ℕ) (h : dget fs.id_to_index rid = none) :
    fs.find_similar_recipes rid k = [] := by
  unfold FaissService.find_similar_recipes
  rw [h]

/-- C4 witness at a concrete one-document service. -/
theorem find_similar_absent_id_returns_empty_witness :
    (FaissService.mk [("a", 0)] [(0, "a")] 1 1
        (fun _ _ => [])).find_similar_recipes "nope" 5 = [] :=
  find_similar_absent_id_returns_empty _ "nope" 5 rfl

theorem simLoop_excludes_query (fs : FaissService) (rid : String) :
    ∀ (l : List (ℚ × Int)) (k : ℕ), ∀ p ∈ simLoop fs rid k l, p.1 ≠ rid := by
  intro l
  induction l with
  | nil => intro k p hp; simp [simLoop] at hp
  | cons q rest ih =>
      intro k p hp
      obtain ⟨dist, idxr⟩ := q
      rw [simLoop] at hp
      by_cases h1 : idxr < 0 ∨ (fs.nrecipes : Int) ≤ idxr
      · rw [if_pos h1] at hp
        exact ih k p hp
      · rw [if_neg h1] at hp
        cases hg : iget fs.index_to_id idxr with
        | none =>
            rw [hg] at hp
            exact ih k p hp
        | some rid2 =>
            rw [hg] at hp
            dsimp only at hp
            by_cases h2 : rid2 = "" ∨ rid2 = rid
            · rw [if_pos h2] at hp
              exact ih k p hp
            · rw [if_neg h2] at hp
              push_neg at h2
              by_cases h3 : k ≤ 1
              · rw [if_pos h3] at hp
                rw [List.mem_singleton] at hp
                rw [hp]
                exact h2.2
              · rw [if_neg h3] at hp
                rcases List.mem_cons.mp hp with he | hm
                · rw [he]
                  exact h2.2
                · exact ih (k - 1) p hm

/-- C7: find_similar_recipes never includes the query document id among
its results: the query document is excluded by id (every row whose mapped
id equals the query id is skipped), not merely by its position in the
neighbor list. -/
theorem find_similar_excludes_query_id (fs : FaissService) (rid : String) (k : ℕ)
    (_hcorpus : 2 ≤ fs.ntotal) (_hk : 1 ≤ k)
    (_hin : (dget fs.id_to_index rid).isSome = true) :
    ∀ p ∈ fs.find_similar_recipes rid k, p.1 ≠ rid := by
  intro p hp
  unfold FaissService.find_similar_recipes at hp
  cases hidx : dget fs.id_to_index rid with
  | none => rw [hidx] at hp; simp at hp
  | some idx =>
      rw [hidx] at hp
      exact simLoop_excludes_query fs rid _ k p hp

/-- C7 witness: a two-document service whose FAISS engine returns the
query row first and a duplicate-id row later; the query id never appears
in the output. -/
theorem find_similar_excludes_query_id_witness :
    "a" ∉ ((FaissService.mk [("a", 0), ("b", 1)] [(0, "a"), (1, "b")] 2 2
        (fun _ _ => [(0, 0), (0, 1), (0, 0)])).find_similar_recipes "a" 2).map
        Prod.fst := by
  intro hmem
  obtain ⟨p, hp, he⟩ := List.mem_map.mp hmem
  exact find_similar_excludes_query_id
    (FaissService.mk [("a", 0), ("b", 1)] [(0, "a"), (1, "b")] 2 2
      (fun _ _ => [(0, 0), (0, 1), (0, 0)]))
    "a" 2 (by decide) (by decide) (by decide) p hp he

/-! FacetIndex persistence (facet_index.py, save/load). -/

/-- The serialized form FacetIndex.save writes: the six posting dicts and
the three duration bucket entries of the duration_index dict.  The pickled
posting value lists are modelled by the sets they are produced from:
save writes list(v) and load immediately reads set(v) back, and
set(list(v)) = v, so the intermediate list order is observably
irrelevant. -/
structure FacetSaveData where
  country_index : Dict (Finset String)
  category_index : Dict (Finset String)
  difficulty_index : Dict (Finset String)
  meal_type_index : Dict (Finset String)
  cooking_method_index : Dict (Finset String)
  ingredient_index : Dict (Finset String)
  dur_quick : Finset String
  dur_medium : Finset String
  dur_long : Finset String

/-- FacetIndex.save: serializes every posting dict and the duration
buckets. -/
def FacetIndex.save (fi : FacetIndex) : FacetSaveData :=
  ⟨fi.country_index, fi.category_index, fi.difficulty_index, fi.meal_type_index,
    fi.cooking_method_index, fi.ingredient_index,
    fi.dur_quick, fi.dur_medium, fi.dur_long⟩

/-- FacetIndex.load as written.  For each per-facet dict the loop clears
the target dict, re-inserts the saved entries one by one, and after each
key calls getattr(self, name) on an attribute name derived by string
replacement.  That name is wrong for five of the six dicts (all_country,
all_category, all_difficulty, all_meal_type, all_ingredient do not exist;
only all_cooking_methods is derived correctly), so with a non-empty saved
dict the first re-inserted key raises AttributeError; the surrounding
try/except logs it and returns False, leaving the partially mutated index
in place.  Returns the success flag together with the resulting state. -/
def FacetIndex.load (fi : FacetIndex) (d : FacetSaveData) : Bool × FacetIndex :=
  match d.country_index with
  | (k, v) :: _ => (false, { fi with country_index := [(k, v)] })
  | [] =>
    let fi1 := { fi with country_index := [] }
    match d.category_index with
    | (k, v) :: _ => (false, { fi1 with category_index := [(k, v)] })
    | [] =>
      let fi2 := { fi1 with category_index := [] }
      match d.difficulty_index with
      | (k, v) :: _ => (false, { fi2 with difficulty_index := [(k, v)] })
      | [] =>
        let fi3 := { fi2 with difficulty_index := [] }
        match d.meal_type_index with
        | (k, v) :: _ => (false, { fi3 with meal_type_index := [(k, v)] })
        | [] =>
          let fi4 := { fi3 with meal_type_index := [] }
          let fi5 := { fi4 with
            cooking_method_index := d.cooking_method_index
            all_cooking_methods := fi4.all_cooking_methods ∪
              (d.cooking_method_index.map Prod.fst).toFinset }
          match d.ingredient_index with
          | (k, v) :: _ => (false, { fi5 with ingredient_index := [(k, v)] })
          | [] =>
            let fi6 := { fi5 with ingredient_index := [] }
            (true, { fi6 with
              dur_quick := d.dur_quick
              dur_medium := d.dur_medium
              dur_long := d.dur_long })

/-- C3: the save/load round-trip fails for the Facet Index: loading the
saved form of a one-recipe index into a fresh FacetIndex() returns False
(the load loop derives the attribute name all_country, which does not
exist, and the AttributeError aborts the load after the first country
key), and the resulting partially loaded structure answers the probe
filter with category Dessert differently from the pre-serialization
index. -/
theorem facet_roundtrip_fails :
    ((FacetIndex.init.load (buildFacetIndex [("r1", ⟨some "France", some "Dessert",
          none, none, none, [], none⟩)]).save).1 = false) ∧
    (FacetIndex.init.load (buildFacetIndex [("r1", ⟨some "France", some "Dessert",
          none, none, none, [], none⟩)]).save).2.filter_recipes
        ⟨none, some "Dessert", none, none, none, none, none, none⟩ ≠
      (buildFacetIndex [("r1", ⟨some "France", some "Dessert",
          none, none, none, [], none⟩)]).filter_recipes
        ⟨none, some "Dessert", none, none, none, none, none, none⟩ :=
  ⟨rfl, by decide⟩
